import Mathlib

/-!
Verification of the statistical core of `hyperg_test_pvalue.py`
(repository `enrichment_pvalue_calc`): a shallow embedding of the
hypergeometric tail function, the pairwise enrichment test, the random
background estimator and the batch orchestrator, together with theorems
settling the specification claims.

Machine reals are modelled by `ℚ`: every probability the code produces
is a finite sum of ratios of binomial coefficients, so the exact
rational value determines the double the code returns.
-/

variable {α : Type} [DecidableEq α]

/-- Closed-form probability mass function of the hypergeometric
distribution with population size `M`, success count `n` and `N` draws,
evaluated at `j`: `C(n,j) * C(M-n, N-j) / C(M,N)`.  This is the
distribution `scipy.stats.hypergeom(M, n, N)` evaluates; the model is
faithful for `n ≤ M` and `N ≤ M`. -/
def hypergeom_pmf (M n N j : ℕ) : ℚ :=
  ((n.choose j : ℚ) * ((M - n).choose (N - j) : ℚ)) / (M.choose N : ℚ)

/-- Model of the external call `scipy.stats.hypergeom.sf(k, M, n, N)`:
the strict upper tail `P(X > k) = 1 - P(X ≤ k)` (scipy's survival
function at an integer point `k` excludes `k` itself).  Faithful for
`n ≤ M` and `N ≤ M`; `k` may be any integer (scipy clamps out-of-range
arguments to the degenerate tails `1` and `0`). -/
def hypergeom_sf (k : ℤ) (M n N : ℕ) : ℚ :=
  ∑ j in Finset.range (N + 1), if k < (j : ℤ) then hypergeom_pmf M n N j else 0

/-- Cumulative distribution function `P(X ≤ k)` of the same
distribution, used to state tail identities. -/
def hypergeom_cdf (k : ℤ) (M n N : ℕ) : ℚ :=
  ∑ j in Finset.range (N + 1), if (j : ℤ) ≤ k then hypergeom_pmf M n N j else 0

/-- The quantity the specification's words describe: the inclusive
upper tail `P(X ≥ k)` (equivalently the survival function evaluated at
`k - 1`).  This definition follows the spec's words, to be compared
with the code's `hypergeom_pvalue`. -/
def spec_tail_geq (k : ℤ) (M n N : ℕ) : ℚ :=
  ∑ j in Finset.range (N + 1), if k ≤ (j : ℤ) then hypergeom_pmf M n N j else 0

/-- `hypergeom_pvalue` (src/hyperg_test_pvalue.py, lines 33-40), scalar
form: the code returns `hypergeom.sf(k, M, n, N)` unchanged. -/
def hypergeom_pvalue (k : ℤ) (N n M : ℕ) : ℚ :=
  hypergeom_sf k M n N

/-- `hypergeom_pvalue` (src/hyperg_test_pvalue.py, lines 41-42),
batched form: `list(map(lambda k, N: hypergeom.sf(k, M, n, N), k, N))`.
Python's two-iterable `map` pairs elements positionally and stops at
the shorter input, which `List.zip` models exactly. -/
def hypergeom_pvalue_batch (ks : List ℤ) (Ns : List ℕ) (n M : ℕ) : List ℚ :=
  (ks.zip Ns).map (fun p => hypergeom_pvalue p.1 p.2 n M)

/-- `intersect` (src/hyperg_test_pvalue.py, lines 29-30):
`set(set1).intersection(set2)` — the set of elements common to both
inputs. -/
def intersect (set1 set2 : List α) : Finset α :=
  set1.toFinset ∩ set2.toFinset

/-- The population size `M` computed by `enrichment_pvalue` (line 93
converts the universe to a `set` before `len` on line 98): the number
of distinct elements of the universe argument. -/
def enrichment_popsize (univ : List α) : ℕ :=
  univ.toFinset.card

/-- The population size `M` computed by `pvalue_random` (line 65:
`M = len(universe)`): the raw length of the universe argument, with no
deduplication. -/
def random_popsize (univ : List α) : ℕ :=
  univ.length

/-- The runtime errors the Python functions can raise.
`valueError` is what `random.sample` raises when the requested sample
size exceeds the population; `zeroDivisionError` is what the division
`pvalues / n_repeats` raises when `n_repeats = 0`;
`invalidParameterError` stands for the `InvalidParameterError` named by
the specification — no code in the repository defines or raises it. -/
inductive PyError : Type
  | valueError
  | zeroDivisionError
  | invalidParameterError
  deriving DecidableEq, Repr

/-- Model of `random.sample(universe, n)` (line 63).  The pseudo-random
subset itself is supplied by the oracle argument `sample`; the library
call raises `ValueError` exactly when `n` exceeds the population
size. -/
def random_sample (univ : List α) (n : ℕ) (sample : List α) :
    Except PyError (List α) :=
  if n ≤ univ.length then Except.ok sample else Except.error PyError.valueError

/-- The accumulation loop of `pvalue_random` (lines 61-66): `rem`
iterations remain, `i` is the current loop index, `draws i` is the
pseudo-random sample the `i`-th iteration would obtain.  Each iteration
adds `hypergeom_pvalue(k, n_random, len(ref_set), len(universe))` with
`k = len(intersect(random_set, ref_set))`. -/
def pvalue_random_go (n_random : ℕ) (univ ref_set : List α)
    (draws : ℕ → List α) : ℕ → ℕ → Except PyError ℚ
  | _, 0 => Except.ok 0
  | i, rem + 1 => do
    let s ← random_sample univ n_random (draws i)
    let p := hypergeom_pvalue ((intersect s ref_set).card : ℤ) n_random
      ref_set.length (random_popsize univ)
    let rest ← pvalue_random_go n_random univ ref_set draws (i + 1) rem
    pure (p + rest)

/-- `pvalue_random` (src/hyperg_test_pvalue.py, lines 45-67).
`n_repeats` is a Python `int`, so it may be negative;
`range(n_repeats)` is empty for every non-positive count, which
`Int.toNat` models.  The loop runs first; the final statement
`return pvalues / n_repeats` raises `ZeroDivisionError` when
`n_repeats = 0` (`pvalues` is still the integer `0` and Python division
by zero raises), while for a negative count it silently returns
`0 / n_repeats` — Python's `-0.0`, which compares equal to `0.0` and is
the rational `0` here. -/
def pvalue_random (n_random : ℕ) (univ ref_set : List α) (n_repeats : ℤ)
    (draws : ℕ → List α) : Except PyError ℚ := do
  let s ← pvalue_random_go n_random univ ref_set draws 0 n_repeats.toNat
  if n_repeats = 0 then Except.error PyError.zeroDivisionError
  else pure (s / (n_repeats : ℚ))

/-- The value `pvalue_random` returns on a successful run: the
arithmetic mean over the `n_repeats` samples. -/
def pvalue_random_val (n_random : ℕ) (univ ref_set : List α)
    (n_repeats : ℕ) (draws : ℕ → List α) : ℚ :=
  (∑ i in Finset.range n_repeats,
    hypergeom_pvalue ((intersect (draws i) ref_set).card : ℤ) n_random
      ref_set.length (random_popsize univ)) / (n_repeats : ℚ)

/-- `enrichment_pvalue` (src/hyperg_test_pvalue.py, lines 70-101).
Line 93 turns the universe into a set; with `check_valid` the two input
sets are replaced by the set of their elements lying in the universe
(a Python `set`, modelled by a deduplicated filtered list).  Then
`k = len(intersect(que_set, ref_set))`,
`M, n, N = len(universe), len(ref_set), len(que_set)` and the result is
`hypergeom_pvalue(k, N, n, M)`.  Note that with `check_valid=False` the
lengths `n` and `N` are raw sequence lengths. -/
def enrichment_pvalue (ref_set que_set univ : List α)
    (check_valid : Bool) : ℚ :=
  let uniSet := univ.toFinset
  let refL := if check_valid then (ref_set.filter (fun x => x ∈ uniSet)).dedup
    else ref_set
  let queL := if check_valid then (que_set.filter (fun x => x ∈ uniSet)).dedup
    else que_set
  let k := (intersect queL refL).card
  hypergeom_pvalue (k : ℤ) queL.length refL.length (enrichment_popsize univ)

/-- Python `dict` lookup `d[k]` on an insertion-ordered association
list (the model of a `dict` used below). -/
def dictGet {β : Type} : List (String × β) → String → Option β
  | [], _ => none
  | p :: rest, k => if p.1 = k then some p.2 else dictGet rest k

/-- Whether the key is present. -/
def dictContains {β : Type} : List (String × β) → String → Bool
  | [], _ => false
  | p :: rest, k => if p.1 = k then true else dictContains rest k

/-- Replace the value stored at an existing key, keeping its
position. -/
def dictUpdate {β : Type} : List (String × β) → String → β → List (String × β)
  | [], _, _ => []
  | p :: rest, k, v => if p.1 = k then (k, v) :: rest else p :: dictUpdate rest k v

/-- Python `dict` assignment `d[k] = v`: update in place when the key
exists (its position is preserved), otherwise append the new pair. -/
def dictInsert {β : Type} (d : List (String × β)) (k : String) (v : β) :
    List (String × β) :=
  if dictContains d k then dictUpdate d k v else d ++ [(k, v)]

/-- Auto-tagging of a positional collection (lines 125-130):
`[f'ref_{i}' for i in range(len(ref_sets))]` with base `"ref_"`, and
likewise `"que_"`. -/
def auto_tag (base : String) (sets : List (List α)) : List (String × List α) :=
  ((List.range sets.length).zip sets).map (fun p => (base ++ toString p.1, p.2))

/-- The row labels the orchestrator intends to produce: each query tag
immediately followed by the tag with the literal suffix `(random)`. -/
def row_labels {β : Type} : List (String × β) → List String
  | [] => []
  | p :: rest => p.1 :: (p.1 ++ "(random)") :: row_labels rest

/-- A Python `set` resulting from `intersect(s, u)`, represented as a
duplicate-free list so that downstream length computations are
executable: same elements as `intersect s u`. -/
def inter_list (s u : List α) : List α :=
  (s.filter (fun x => x ∈ u.toFinset)).dedup

/-- The contents of one column of the result table (for the
universe-filtered reference set `refL`), when no row label collides:
the direct p-value and the random background value for each query tag
in order. -/
def col_spec (univ : List α) (n_rep : ℕ) (draws : String → ℕ → List α)
    (refL : List α) : List (String × List α) → List (String × ℚ)
  | [] => []
  | (q, qs) :: rest =>
    (q, enrichment_pvalue refL qs univ false) ::
    (q ++ "(random)", pvalue_random_val qs.length univ refL n_rep (draws q)) ::
    col_spec univ n_rep draws refL rest

/-- The inner loop of `multi_sets_pvalues` (lines 137-142), building
the column dictionary `record[ref_tag]` for one universe-filtered
reference set `refL`: for each query tag, store the direct enrichment
p-value under the tag and the random background estimate (with sample
size `len(qset)`) under the tag plus `"(random)"`.  `draws q` supplies
the pseudo-random samples used for query tag `q`. -/
def multi_sets_build_col (univ : List α) (n_rep : ℕ)
    (draws : String → ℕ → List α) (refL : List α) :
    List (String × List α) → List (String × ℚ) →
    Except PyError (List (String × ℚ))
  | [], acc => Except.ok acc
  | (q, qs) :: rest, acc => do
    let direct := enrichment_pvalue refL qs univ false
    let bg ← pvalue_random qs.length univ refL (n_rep : ℤ) (draws q)
    multi_sets_build_col univ n_rep draws refL rest
      (dictInsert (dictInsert acc q direct) (q ++ "(random)") bg)

/-- The outer loop of `multi_sets_pvalues` (lines 135-142), building
the `record` dictionary column by column. -/
def multi_sets_build (univ : List α) (n_rep : ℕ)
    (draws : String → String → ℕ → List α)
    (queF : List (String × List α)) :
    List (String × List α) → List (String × List (String × ℚ)) →
    Except PyError (List (String × List (String × ℚ)))
  | [], acc => Except.ok acc
  | (r, refL) :: rest, acc => do
    let col ← multi_sets_build_col univ n_rep (draws r) refL queF []
    multi_sets_build univ n_rep draws queF rest (dictInsert acc r col)

/-- `multi_sets_pvalues` (src/hyperg_test_pvalue.py, lines 104-145) on
tag-to-set mappings (modelled as insertion-ordered association lists,
matching Python `dict`).  Lines 131-132 pre-filter every reference and
query set by `intersect(s, universe)` (the resulting Python sets are
represented by the duplicate-free lists `inter_list`); the result table
is the nested dictionary `record`, whose columns are reference tags and
whose rows are the keys of the inner dictionaries.  `draws r q i` is
the pseudo-random sample used at repeat `i` for pair `(r, q)`. -/
def multi_sets_pvalues (ref_sets que_sets : List (String × List α))
    (univ : List α) (n_rep : ℕ) (draws : String → String → ℕ → List α) :
    Except PyError (List (String × List (String × ℚ))) :=
  let refF := ref_sets.map (fun p => (p.1, inter_list p.2 univ))
  let queF := que_sets.map (fun p => (p.1, inter_list p.2 univ))
  multi_sets_build univ n_rep draws queF refF []

/-- `multi_sets_pvalues` on positional collections (lines 125-130):
both collections are auto-tagged and the mapping form is used. -/
def multi_sets_pvalues_seq (ref_sets que_sets : List (List α))
    (univ : List α) (n_rep : ℕ) (draws : String → String → ℕ → List α) :
    Except PyError (List (String × List (String × ℚ))) :=
  multi_sets_pvalues (auto_tag "ref_" ref_sets) (auto_tag "que_" que_sets)
    univ n_rep draws

/-! ## Facts about the hypergeometric model -/

lemma exceptOk_bind {ε γ δ : Type} (a : γ) (f : γ → Except ε δ) :
    ((Except.ok a : Except ε γ) >>= f) = f a :=
  rfl

lemma hypergeom_vandermonde (M n N : ℕ) (hn : n ≤ M) :
    ∑ j in Finset.range (N + 1), n.choose j * (M - n).choose (N - j) =
      M.choose N := by
  have h := Nat.add_choose_eq n (M - n) N
  rw [Nat.add_sub_cancel' hn] at h
  rw [h, Finset.Nat.sum_antidiagonal_eq_sum_range_succ_mk]

lemma hypergeom_total (M n N : ℕ) (hn : n ≤ M) (hN : N ≤ M) :
    ∑ j in Finset.range (N + 1), hypergeom_pmf M n N j = 1 := by
  have hpos : (0 : ℚ) < (M.choose N : ℚ) := by
    exact_mod_cast Nat.choose_pos hN
  unfold hypergeom_pmf
  rw [← Finset.sum_div, div_eq_one_iff_eq (ne_of_gt hpos)]
  exact_mod_cast hypergeom_vandermonde M n N hn

lemma hypergeom_sf_add_cdf (k : ℤ) (M n N : ℕ) (hn : n ≤ M) (hN : N ≤ M) :
    hypergeom_sf k M n N + hypergeom_cdf k M n N = 1 := by
  unfold hypergeom_sf hypergeom_cdf
  rw [← Finset.sum_add_distrib, ← hypergeom_total M n N hn hN]
  apply Finset.sum_congr rfl
  intro j _
  by_cases h : k < (j : ℤ)
  · rw [if_pos h, if_neg (by omega), add_zero]
  · rw [if_neg h, if_pos (by omega), zero_add]

/-! ## Claim C1 -/

/-- C1, counterexample: the code does not return the inclusive upper
tail `P(X ≥ k)`.  At the spec's own concrete scenario (M=10, n=4, N=4,
k=2) the scalar function and `enrichment_pvalue` return
`hypergeom.sf(2, 10, 4, 4) = 5/42 ≈ 0.119`, not
`P(X ≥ 2) = hypergeom.sf(2-1, 10, 4, 4) = 23/42 ≈ 0.548`. -/
theorem c1_counterexample :
    hypergeom_pvalue 2 4 4 10 ≠ spec_tail_geq 2 10 4 4 ∧
    enrichment_pvalue ["A", "B", "C", "D"] ["A", "B", "E", "F"]
      ["A", "B", "C", "D", "E", "F", "G", "H", "I", "J"] true ≠
      spec_tail_geq 2 10 4 4 := by
  have h1 : hypergeom_pvalue 2 4 4 10 = 5 / 42 := by
    norm_num [hypergeom_pvalue, hypergeom_sf, hypergeom_pmf,
      Finset.sum_range_succ, Finset.sum_range_zero, Nat.choose]
  have h2 : spec_tail_geq 2 10 4 4 = 23 / 42 := by
    norm_num [spec_tail_geq, hypergeom_pmf,
      Finset.sum_range_succ, Finset.sum_range_zero, Nat.choose]
  have h3 : enrichment_pvalue ["A", "B", "C", "D"] ["A", "B", "E", "F"]
      ["A", "B", "C", "D", "E", "F", "G", "H", "I", "J"] true =
      hypergeom_pvalue 2 4 4 10 := rfl
  constructor
  · rw [h1, h2]
    norm_num
  · rw [h3, h1, h2]
    norm_num

/-- C1 (amended): for every valid parameter tuple (`n ≤ M`, `N ≤ M`)
the scalar `hypergeom_pvalue(k, N, n, M)` returns the strict upper-tail
probability `P(X > k) = 1 - P(X ≤ k)`, the survival function evaluated
at `k` itself; in particular, for universe size M=10, reference size
n=4, query size N=4 and overlap k=2, `enrichment_pvalue` returns the
value of `hypergeom.sf(2, 10, 4, 4)`. -/
theorem c1_tail_convention :
    (∀ (k : ℤ) (M n N : ℕ), n ≤ M → N ≤ M →
      hypergeom_pvalue k N n M = 1 - hypergeom_cdf k M n N) ∧
    enrichment_pvalue ["A", "B", "C", "D"] ["A", "B", "E", "F"]
      ["A", "B", "C", "D", "E", "F", "G", "H", "I", "J"] true =
      hypergeom_sf 2 10 4 4 := by
  constructor
  · intro k M n N hn hN
    have hadd := hypergeom_sf_add_cdf k M n N hn hN
    unfold hypergeom_pvalue
    linarith
  · rfl

/-- C1, witness: the amended theorem instantiated at the concrete
scenario parameters. -/
theorem c1_witness :
    ((4 : ℕ) ≤ 10 ∧ (4 : ℕ) ≤ 10) ∧
    hypergeom_pvalue 2 4 4 10 = 1 - hypergeom_cdf 2 10 4 4 :=
  ⟨⟨by decide, by decide⟩, c1_tail_convention.1 2 10 4 4 (by decide) (by decide)⟩

/-! ## Claim C2 -/

/-- C2, counterexample: `hypergeom_pvalue(0, 4, 4, 10)` is
`1 - P(X = 0) = 13/14`, not `1.0`. -/
theorem c2_counterexample :
    hypergeom_pvalue 0 4 4 10 = 13 / 14 ∧ hypergeom_pvalue 0 4 4 10 ≠ 1 := by
  norm_num [hypergeom_pvalue, hypergeom_sf, hypergeom_pmf,
    Finset.sum_range_succ, Finset.sum_range_zero, Nat.choose]

/-- C2 (amended): for every valid parameter tuple with `k = 0`
(`n ≤ M`, `N ≤ M`), `hypergeom_pvalue(0, N, n, M)` returns
`1 - P(X = 0)` — the probability of at least one overlap — which equals
`1.0` only when the distribution puts no mass at zero. -/
theorem c2_k_zero (N n M : ℕ) (hn : n ≤ M) (hN : N ≤ M) :
    hypergeom_pvalue 0 N n M = 1 - hypergeom_pmf M n N 0 := by
  have hadd := hypergeom_sf_add_cdf 0 M n N hn hN
  have hc : hypergeom_cdf 0 M n N = hypergeom_pmf M n N 0 := by
    unfold hypergeom_cdf
    have hcong : ∀ j ∈ Finset.range (N + 1),
        (if (j : ℤ) ≤ 0 then hypergeom_pmf M n N j else 0) =
        (if j = 0 then hypergeom_pmf M n N j else 0) := by
      intro j _
      by_cases h : j = 0
      · subst h
        norm_num
      · rw [if_neg (by omega : ¬ ((j : ℤ) ≤ (0 : ℤ))), if_neg h]
    rw [Finset.sum_congr rfl hcong,
      Finset.sum_ite_eq' (Finset.range (N + 1)) 0 (hypergeom_pmf M n N),
      if_pos (Finset.mem_range.mpr (Nat.succ_pos N))]
  unfold hypergeom_pvalue
  linarith

/-- C2, witness: the amended theorem at N=4, n=4, M=10, where the value
is `13/14`. -/
theorem c2_witness :
    ((4 : ℕ) ≤ 10 ∧ (4 : ℕ) ≤ 10) ∧
    hypergeom_pvalue 0 4 4 10 = 1 - hypergeom_pmf 10 4 4 0 :=
  ⟨⟨by decide, by decide⟩, c2_k_zero 4 4 10 (by decide) (by decide)⟩

/-! ## Claim C6 -/

/-- C6, counterexample: at the malformed tuple k=5 > min(n, N) = 4
(with N=4, n=4, M=10) the code raises nothing and returns the
probability value `0.0`; no `InvalidParameterError` exists anywhere in
the code. -/
theorem c6_counterexample :
    hypergeom_pvalue 5 4 4 10 = 0 ∧ ((min 4 4 : ℕ) : ℤ) < 5 := by
  constructor
  · norm_num [hypergeom_pvalue, hypergeom_sf, hypergeom_pmf,
      Finset.sum_range_succ, Finset.sum_range_zero, Nat.choose]
  · decide

/-- C6 (amended): `hypergeom_pvalue` performs no parameter validation
and raises nothing; for `k ≥ min(n, N)` (with `n ≤ M`, `N ≤ M`) it
returns the degenerate tail value `0.0`, and for negative `k` it
returns `1.0` — the degenerate outputs of the underlying distribution's
closed form. -/
theorem c6_no_validation (k : ℤ) (M n N : ℕ) (hn : n ≤ M) (hN : N ≤ M) :
    (((min n N : ℕ) : ℤ) ≤ k → hypergeom_pvalue k N n M = 0) ∧
    (k < 0 → hypergeom_pvalue k N n M = 1) := by
  constructor
  · intro hk
    unfold hypergeom_pvalue hypergeom_sf
    apply Finset.sum_eq_zero
    intro j hj
    rw [Finset.mem_range] at hj
    by_cases hcase : k < (j : ℤ)
    · rw [if_pos hcase]
      have hnj : n < j := by
        rcases Nat.le_total n N with hmin | hmin
        · have hnk : (n : ℤ) ≤ k := by
            rw [min_eq_left hmin] at hk
            exact_mod_cast hk
          omega
        · have hNk : (N : ℤ) ≤ k := by
            rw [min_eq_right hmin] at hk
            exact_mod_cast hk
          omega
      unfold hypergeom_pmf
      rw [Nat.choose_eq_zero_of_lt hnj]
      simp
    · rw [if_neg hcase]
  · intro hk
    unfold hypergeom_pvalue hypergeom_sf
    rw [← hypergeom_total M n N hn hN]
    apply Finset.sum_congr rfl
    intro j _
    rw [if_pos (show k < (j : ℤ) by omega)]

/-- C6, witness: the amended theorem at the malformed input k=5,
N=n=4, M=10. -/
theorem c6_witness :
    ((4 : ℕ) ≤ 10 ∧ (4 : ℕ) ≤ 10 ∧ ((min 4 4 : ℕ) : ℤ) ≤ 5) ∧
    hypergeom_pvalue 5 4 4 10 = 0 :=
  ⟨⟨by decide, by decide, by decide⟩,
    (c6_no_validation 5 10 4 4 (by decide) (by decide)).1 (by decide)⟩

/-! ## Claim C7 -/

/-- C7, counterexample: the claim covers any non-positive repeat count,
but at `n_repeats = -1` the loop `for i in range(-1)` never runs and
the code silently returns `0 / -1` — Python's `-0.0`, the rational `0`
— as a successful value, raising nothing. -/
theorem c7_counterexample :
    ((-1 : ℤ) < 0) ∧
    pvalue_random 1 ["a"] ([] : List String) (-1) (fun _ => []) =
      Except.ok 0 := by
  constructor
  · decide
  · have h : pvalue_random 1 ["a"] ([] : List String) (-1) (fun _ => []) =
        Except.ok ((0 : ℚ) / ((-1 : ℤ) : ℚ)) := rfl
    rw [h, zero_div]

/-- C7 (amended): calling `pvalue_random` with `n_repeats = 0` fails —
the loop body never runs, `pvalues` stays the integer `0`, and the
division `pvalues / n_repeats` raises `ZeroDivisionError`, so no value
(in particular no NaN or Inf) is ever returned; but for a strictly
negative repeat count the empty loop is followed by a well-defined
division and the code silently returns `0 / n_repeats = -0.0` (the
rational `0`) instead of failing: only the count zero is rejected, and
by the division error rather than an explicit parameter check. -/
theorem c7_nonpositive_repeats (n_random : ℕ) (univ ref_set : List α)
    (draws : ℕ → List α) (n_repeats : ℤ) :
    (n_repeats = 0 →
      pvalue_random n_random univ ref_set n_repeats draws =
        Except.error PyError.zeroDivisionError) ∧
    (n_repeats < 0 →
      pvalue_random n_random univ ref_set n_repeats draws =
        Except.ok 0) := by
  constructor
  · intro h
    subst h
    rfl
  · intro h
    have ht : n_repeats.toNat = 0 := Int.toNat_of_nonpos h.le
    unfold pvalue_random
    rw [ht]
    show ((Except.ok (0 : ℚ)) >>= fun s =>
        if n_repeats = 0 then Except.error PyError.zeroDivisionError
        else pure (s / (n_repeats : ℚ))) = Except.ok 0
    rw [exceptOk_bind, if_neg (by omega : ¬ n_repeats = 0), zero_div]
    rfl

/-- C7, witness: the amended theorem at `n_repeats = 0` (fails with
`ZeroDivisionError`) and at `n_repeats = -2` (silently returns 0). -/
theorem c7_witness :
    ((0 : ℤ) = 0 ∧
      pvalue_random 5 (["a"] : List String) ["a"] 0 (fun _ => []) =
        Except.error PyError.zeroDivisionError) ∧
    ((-2 : ℤ) < 0 ∧
      pvalue_random 5 (["a"] : List String) ["a"] (-2) (fun _ => []) =
        Except.ok 0) :=
  ⟨⟨rfl, (c7_nonpositive_repeats 5 ["a"] ["a"] (fun _ => []) 0).1 rfl⟩,
    ⟨by decide,
      (c7_nonpositive_repeats 5 ["a"] ["a"] (fun _ => []) (-2)).2
        (by decide)⟩⟩

/-! ## Claim C8 -/

/-- C8, counterexample: asking for a sample of 2 from a universe of
length 1 fails with `ValueError` (raised by `random.sample`), not with
the `InvalidParameterError` the claim names — no such exception exists
in the code. -/
theorem c8_counterexample :
    pvalue_random 2 ["a"] ([] : List String) 1 (fun _ => []) =
      Except.error PyError.valueError ∧
    PyError.valueError ≠ PyError.invalidParameterError := by
  constructor
  · rfl
  · decide

/-- C8 (amended): whenever the sample size strictly exceeds the number
of elements of the universe, `pvalue_random` fails rather than
returning a value — with the `ValueError` of `random.sample` when at
least one repeat runs, and with the `ZeroDivisionError` of the final
division when `n_repeats = 0` (the loop body never executes then). -/
theorem c8_oversample (n_random : ℕ) (univ ref_set : List α)
    (n_repeats : ℕ) (draws : ℕ → List α) (h : univ.length < n_random) :
    pvalue_random n_random univ ref_set n_repeats draws =
      Except.error
        (if n_repeats = 0 then PyError.zeroDivisionError
         else PyError.valueError) := by
  cases n_repeats with
  | zero => rfl
  | succ m =>
    have hs : random_sample univ n_random (draws 0) =
        Except.error PyError.valueError := by
      unfold random_sample
      rw [if_neg (by omega)]
    have hgo : pvalue_random_go n_random univ ref_set draws 0 (m + 1) =
        Except.error PyError.valueError := by
      unfold pvalue_random_go
      rw [hs]
      rfl
    unfold pvalue_random
    rw [Int.toNat_natCast, hgo]
    rfl

/-- C8, witness: the amended theorem at a concrete oversized sample
request (sample size 3, universe of length 2, one repeat). -/
theorem c8_witness :
    ((["a", "b"] : List String).length < 3) ∧
    pvalue_random 3 ["a", "b"] (["a"] : List String) 1 (fun _ => []) =
      Except.error PyError.valueError :=
  ⟨by decide, c8_oversample 3 ["a", "b"] ["a"] 1 (fun _ => []) (by decide)⟩

/-! ## Claim C9 -/

/-- C9 (confirmed): the batched form returns one value per positional
pair, truncating to the shorter of the two sequences (Python's
two-iterable `map`), and entry `i` is the scalar form applied to
`(k_i, N_i, n, M)`. -/
theorem c9_batch_truncation (ks : List ℤ) (Ns : List ℕ) (n M : ℕ) :
    (hypergeom_pvalue_batch ks Ns n M).length = min ks.length Ns.length ∧
    ∀ (i : ℕ) (h1 : i < ks.length) (h2 : i < Ns.length),
      (hypergeom_pvalue_batch ks Ns n M)[i]? =
        some (hypergeom_pvalue (ks.get ⟨i, h1⟩) (Ns.get ⟨i, h2⟩) n M) := by
  constructor
  · simp [hypergeom_pvalue_batch]
  · intro i h1 h2
    have hz : i < ((ks.zip Ns).map
        (fun p => hypergeom_pvalue p.1 p.2 n M)).length := by
      rw [List.length_map, List.length_zip]
      omega
    unfold hypergeom_pvalue_batch
    rw [List.getElem?_eq_getElem hz, List.getElem_map, List.getElem_zip]
    simp

/-- C9, witness: with `ks` of length 3 and `Ns` of length 2 the result
has length 2, and entry 0 is the scalar value at `(k_0, N_0)`. -/
theorem c9_witness :
    (hypergeom_pvalue_batch [0, 3, 7] [4, 4] 4 10).length = min 3 2 ∧
    (hypergeom_pvalue_batch [0, 3, 7] [4, 4] 4 10)[0]? =
      some (hypergeom_pvalue 0 4 4 10) :=
  ⟨(c9_batch_truncation [0, 3, 7] [4, 4] 4 10).1,
    (c9_batch_truncation [0, 3, 7] [4, 4] 4 10).2 0 (by decide) (by decide)⟩

/-! ## Claim C10 -/

/-- C10 (confirmed): `enrichment_pvalue` computes the population size
`M` as the number of distinct universe elements (`len(set(universe))`,
the definition `enrichment_popsize` used on line 98 after line 93),
while `pvalue_random` uses the raw length (`len(universe)`, the
definition `random_popsize` used on line 65): the two disagree on every
universe sequence containing a duplicate and agree on every
duplicate-free one. -/
theorem c10_popsize (u : List α) :
    (¬ u.Nodup → enrichment_popsize u ≠ random_popsize u) ∧
    (u.Nodup → enrichment_popsize u = random_popsize u) := by
  constructor
  · intro h hne
    apply h
    rw [enrichment_popsize, random_popsize, List.card_toFinset] at hne
    have hs : u.dedup.Sublist u := List.dedup_sublist u
    have hd : u.dedup = u := hs.eq_of_length hne
    rw [← hd]
    exact List.nodup_dedup u
  · intro h
    rw [enrichment_popsize, random_popsize, List.card_toFinset,
      List.dedup_eq_self.mpr h]

/-- C10, witness: on `["a", "a"]` (a duplicate) the two population
sizes differ; on `["a", "b"]` they agree. -/
theorem c10_witness :
    (¬ (["a", "a"] : List String).Nodup ∧
      enrichment_popsize (["a", "a"] : List String) ≠
        random_popsize (["a", "a"] : List String)) ∧
    ((["a", "b"] : List String).Nodup ∧
      enrichment_popsize (["a", "b"] : List String) =
        random_popsize (["a", "b"] : List String)) :=
  ⟨⟨by decide, (c10_popsize ["a", "a"]).1 (by decide)⟩,
    ⟨by decide, (c10_popsize ["a", "b"]).2 (by decide)⟩⟩

/-! ## Claim C3 -/

lemma toFinset_filterdedup (s u : List α) :
    ((s.filter (fun x => x ∈ u.toFinset)).dedup).toFinset =
      s.toFinset ∩ u.toFinset := by
  ext a
  simp [List.mem_dedup, List.mem_filter]

/-- C3 (confirmed): filtering idempotence.  For every pair of input
sets and every universe, `enrichment_pvalue(ref, que, U, True)` equals
`enrichment_pvalue(ref ∩ U, que ∩ U, U, False)`, where `refX` and
`queX` are any duplicate-free sequences denoting the intersections
`ref ∩ U` and `que ∩ U` (a Python set has no canonical order). -/
theorem c3_filter_idempotence (ref_set que_set univ refX queX : List α)
    (hrn : refX.Nodup) (hrs : refX.toFinset = intersect ref_set univ)
    (hqn : queX.Nodup) (hqs : queX.toFinset = intersect que_set univ) :
    enrichment_pvalue ref_set que_set univ true =
      enrichment_pvalue refX queX univ false := by
  have hk : (intersect ((que_set.filter (fun x => x ∈ univ.toFinset)).dedup)
      ((ref_set.filter (fun x => x ∈ univ.toFinset)).dedup)).card =
      (intersect queX refX).card := by
    unfold intersect
    rw [toFinset_filterdedup, toFinset_filterdedup, hrs, hqs]
    rfl
  have hn : ((ref_set.filter (fun x => x ∈ univ.toFinset)).dedup).length =
      refX.length := by
    rw [← List.toFinset_card_of_nodup (List.nodup_dedup _),
      ← List.toFinset_card_of_nodup hrn, toFinset_filterdedup, hrs]
    rfl
  have hN : ((que_set.filter (fun x => x ∈ univ.toFinset)).dedup).length =
      queX.length := by
    rw [← List.toFinset_card_of_nodup (List.nodup_dedup _),
      ← List.toFinset_card_of_nodup hqn, toFinset_filterdedup, hqs]
    rfl
  show hypergeom_pvalue
      ((intersect ((que_set.filter (fun x => x ∈ univ.toFinset)).dedup)
        ((ref_set.filter (fun x => x ∈ univ.toFinset)).dedup)).card : ℤ)
      ((que_set.filter (fun x => x ∈ univ.toFinset)).dedup).length
      ((ref_set.filter (fun x => x ∈ univ.toFinset)).dedup).length
      (enrichment_popsize univ) =
    hypergeom_pvalue ((intersect queX refX).card : ℤ)
      queX.length refX.length (enrichment_popsize univ)
  rw [hk, hn, hN]

/-- C3, witness: at ref = `["a","z"]`, que = `["a","b"]`,
U = `["a","b","c"]` the filtered call and the pre-intersected call
agree. -/
theorem c3_witness :
    ((["a"] : List String).Nodup ∧
      (["a"] : List String).toFinset = intersect ["a", "z"] ["a", "b", "c"] ∧
      (["a", "b"] : List String).Nodup ∧
      (["a", "b"] : List String).toFinset =
        intersect ["a", "b"] ["a", "b", "c"]) ∧
    enrichment_pvalue ["a", "z"] ["a", "b"] ["a", "b", "c"] true =
      enrichment_pvalue ["a"] ["a", "b"] ["a", "b", "c"] false :=
  ⟨⟨by decide, by decide, by decide, by decide⟩,
    c3_filter_idempotence ["a", "z"] ["a", "b"] ["a", "b", "c"] ["a"]
      ["a", "b"] (by decide) (by decide) (by decide) (by decide)⟩

/-! ## Dictionary and estimator lemmas for the batch orchestrator -/

lemma dictContains_eq_false {β : Type} (d : List (String × β)) (k : String)
    (h : k ∉ d.map Prod.fst) : dictContains d k = false := by
  induction d with
  | nil => rfl
  | cons p rest ih =>
    simp only [List.map_cons, List.mem_cons] at h
    push_neg at h
    unfold dictContains
    rw [if_neg (fun he => h.1 he.symm), ih h.2]

lemma dictInsert_of_not_mem {β : Type} (d : List (String × β)) (k : String)
    (v : β) (h : k ∉ d.map Prod.fst) : dictInsert d k v = d ++ [(k, v)] := by
  unfold dictInsert
  rw [dictContains_eq_false d k h]
  rfl

lemma dictGet_of_mem {β : Type} (l : List (String × β)) (k : String) (v : β)
    (hnd : (l.map Prod.fst).Nodup) (hmem : (k, v) ∈ l) :
    dictGet l k = some v := by
  induction l with
  | nil => cases hmem
  | cons p rest ih =>
    rw [List.map_cons, List.nodup_cons] at hnd
    rcases List.mem_cons.mp hmem with heq | hm
    · subst heq
      unfold dictGet
      rw [if_pos rfl]
    · have hne : p.1 ≠ k := by
        intro he
        exact hnd.1 (he ▸ (List.mem_map.mpr ⟨(k, v), hm, rfl⟩))
      unfold dictGet
      rw [if_neg hne, ih hnd.2 hm]

lemma pvalue_random_go_ok (n_random : ℕ) (univ ref_set : List α)
    (draws : ℕ → List α) (h : n_random ≤ univ.length) :
    ∀ (rem i : ℕ), pvalue_random_go n_random univ ref_set draws i rem =
      Except.ok (∑ j in Finset.range rem,
        hypergeom_pvalue ((intersect (draws (i + j)) ref_set).card : ℤ)
          n_random ref_set.length (random_popsize univ)) := by
  intro rem
  induction rem with
  | zero =>
    intro i
    simp [pvalue_random_go]
  | succ m ih =>
    intro i
    have hs : random_sample univ n_random (draws i) = Except.ok (draws i) := by
      simp [random_sample, h]
    have harg : ∀ j : ℕ, i + 1 + j = i + (j + 1) := fun j => by omega
    simp only [pvalue_random_go, hs, exceptOk_bind, ih (i + 1), harg]
    rw [Finset.sum_range_succ']
    simp only [Nat.add_zero]
    rw [add_comm]
    rfl

lemma pvalue_random_ok (n_random : ℕ) (univ ref_set : List α)
    (n_repeats : ℕ) (draws : ℕ → List α) (h : n_random ≤ univ.length)
    (hrep : n_repeats ≠ 0) :
    pvalue_random n_random univ ref_set (n_repeats : ℤ) draws =
      Except.ok (pvalue_random_val n_random univ ref_set n_repeats draws) := by
  unfold pvalue_random pvalue_random_val
  rw [Int.toNat_natCast,
    pvalue_random_go_ok n_random univ ref_set draws h n_repeats 0]
  simp [hrep]

lemma inter_list_length_le (s u : List α) :
    (inter_list s u).length ≤ u.length := by
  have h1 : (inter_list s u).length = (s.toFinset ∩ u.toFinset).card := by
    rw [inter_list, ← List.toFinset_card_of_nodup (List.nodup_dedup _),
      toFinset_filterdedup]
  rw [h1]
  exact le_trans (Finset.card_le_card Finset.inter_subset_right)
    (List.toFinset_card_le u)

lemma row_labels_map {β γ : Type} (g : String × β → γ) (l : List (String × β)) :
    row_labels (l.map (fun p => (p.1, g p))) = row_labels l := by
  induction l with
  | nil => rfl
  | cons p rest ih =>
    simp only [List.map_cons, row_labels, ih]

lemma col_spec_labels (univ : List α) (n_rep : ℕ)
    (draws : String → ℕ → List α) (refL : List α)
    (queF : List (String × List α)) :
    (col_spec univ n_rep draws refL queF).map Prod.fst = row_labels queF := by
  induction queF with
  | nil => rfl
  | cons p rest ih =>
    obtain ⟨q, qs⟩ := p
    simp only [col_spec, List.map_cons, row_labels, ih]

lemma col_spec_length (univ : List α) (n_rep : ℕ)
    (draws : String → ℕ → List α) (refL : List α)
    (queF : List (String × List α)) :
    (col_spec univ n_rep draws refL queF).length = 2 * queF.length := by
  induction queF with
  | nil => rfl
  | cons p rest ih =>
    obtain ⟨q, qs⟩ := p
    simp only [col_spec, List.length_cons, ih]
    omega

lemma build_col_eq (univ : List α) (n_rep : ℕ) (draws : String → ℕ → List α)
    (refL : List α) (hrep : n_rep ≠ 0) :
    ∀ (queF : List (String × List α)) (acc : List (String × ℚ)),
      (∀ p ∈ queF, p.2.length ≤ univ.length) →
      ((acc.map Prod.fst) ++ row_labels queF).Nodup →
      multi_sets_build_col univ n_rep draws refL queF acc =
        Except.ok (acc ++ col_spec univ n_rep draws refL queF) := by
  intro queF
  induction queF with
  | nil =>
    intro acc _ _
    simp [multi_sets_build_col, col_spec]
  | cons p rest ih =>
    obtain ⟨q, qs⟩ := p
    intro acc hle hnd
    have hbg : pvalue_random qs.length univ refL n_rep (draws q) =
        Except.ok (pvalue_random_val qs.length univ refL n_rep (draws q)) :=
      pvalue_random_ok _ _ _ _ _ (hle (q, qs) (List.mem_cons_self _ _)) hrep
    have hnd' : ((acc.map Prod.fst) ++
        (q :: (q ++ "(random)") :: row_labels rest)).Nodup := hnd
    rw [List.nodup_append] at hnd'
    have h1 : q ∉ acc.map Prod.fst := fun hmem =>
      hnd'.2.2 hmem (List.mem_cons_self _ _)
    have hq2 : q ++ "(random)" ∈ q :: (q ++ "(random)") :: row_labels rest :=
      List.mem_cons_of_mem _ (List.mem_cons_self _ _)
    have hne : q ≠ q ++ "(random)" := by
      intro he
      have hlen := congrArg String.length he
      rw [String.length_append] at hlen
      have h8 : ("(random)" : String).length = 8 := rfl
      omega
    have h2 : q ++ "(random)" ∉ (acc ++ [(q, enrichment_pvalue refL qs univ
        false)]).map Prod.fst := by
      rw [List.map_append]
      intro hmem
      rcases List.mem_append.mp hmem with hm | hm
      · exact hnd'.2.2 hm hq2
      · simp only [List.map_cons, List.map_nil, List.mem_singleton] at hm
        exact hne hm.symm
    have hnd2 : (((dictInsert (dictInsert acc q
        (enrichment_pvalue refL qs univ false)) (q ++ "(random)")
        (pvalue_random_val qs.length univ refL n_rep (draws q))).map
          Prod.fst) ++ row_labels rest).Nodup := by
      rw [dictInsert_of_not_mem _ _ _ h1, dictInsert_of_not_mem _ _ _ h2]
      simpa [List.map_append, List.append_assoc, row_labels] using hnd
    have hle' : ∀ p ∈ rest, p.2.length ≤ univ.length := fun p hp =>
      hle p (List.mem_cons_of_mem _ hp)
    simp only [multi_sets_build_col, hbg, exceptOk_bind]
    rw [ih _ hle' hnd2, dictInsert_of_not_mem _ _ _ h1,
      dictInsert_of_not_mem _ _ _ h2]
    simp [col_spec, List.append_assoc]

lemma build_outer_eq (univ : List α) (n_rep : ℕ)
    (draws : String → String → ℕ → List α) (queF : List (String × List α))
    (hrep : n_rep ≠ 0) (hq : ∀ p ∈ queF, p.2.length ≤ univ.length)
    (hrow : (row_labels queF).Nodup) :
    ∀ (refF : List (String × List α))
      (acc : List (String × List (String × ℚ))),
      ((acc.map Prod.fst) ++ refF.map Prod.fst).Nodup →
      multi_sets_build univ n_rep draws queF refF acc =
        Except.ok (acc ++ refF.map (fun p =>
          (p.1, col_spec univ n_rep (draws p.1) p.2 queF))) := by
  intro refF
  induction refF with
  | nil =>
    intro acc _
    simp [multi_sets_build]
  | cons p rest ih =>
    obtain ⟨r, refL⟩ := p
    intro acc hnd
    have hcol : multi_sets_build_col univ n_rep (draws r) refL queF [] =
        Except.ok ([] ++ col_spec univ n_rep (draws r) refL queF) :=
      build_col_eq univ n_rep (draws r) refL hrep queF [] hq
        (by simpa using hrow)
    have hnd' := hnd
    rw [List.nodup_append] at hnd'
    have h1 : r ∉ acc.map Prod.fst := fun hm => by
      refine hnd'.2.2 hm ?_
      simp
    have hnd2 : (((dictInsert acc r
        (col_spec univ n_rep (draws r) refL queF)).map Prod.fst) ++
        rest.map Prod.fst).Nodup := by
      rw [dictInsert_of_not_mem _ _ _ h1]
      simpa [List.map_append, List.append_assoc] using hnd
    simp only [multi_sets_build, hcol, List.nil_append, exceptOk_bind]
    rw [ih _ hnd2, dictInsert_of_not_mem _ _ _ h1]
    simp [List.append_assoc]

lemma map_fst_pairmap {σ β γ : Type} (g : σ × β → γ) (l : List (σ × β)) :
    (l.map (fun p => (p.1, g p))).map Prod.fst = l.map Prod.fst := by
  induction l with
  | nil => rfl
  | cons p rest ih => simp [ih]

lemma col_spec_mem_direct (univ : List α) (n_rep : ℕ)
    (draws : String → ℕ → List α) (refL : List α)
    (queF : List (String × List α)) (q : String) (qs : List α)
    (hmem : (q, qs) ∈ queF) :
    (q, enrichment_pvalue refL qs univ false) ∈
      col_spec univ n_rep draws refL queF := by
  induction queF with
  | nil => cases hmem
  | cons p rest ih =>
    obtain ⟨q', qs'⟩ := p
    rcases List.mem_cons.mp hmem with heq | hm
    · rw [Prod.mk.injEq] at heq
      unfold col_spec
      rw [heq.1, heq.2]
      exact List.mem_cons_self _ _
    · unfold col_spec
      exact List.mem_cons_of_mem _ (List.mem_cons_of_mem _ (ih hm))

lemma col_spec_mem_bg (univ : List α) (n_rep : ℕ)
    (draws : String → ℕ → List α) (refL : List α)
    (queF : List (String × List α)) (q : String) (qs : List α)
    (hmem : (q, qs) ∈ queF) :
    (q ++ "(random)",
      pvalue_random_val qs.length univ refL n_rep (draws q)) ∈
      col_spec univ n_rep draws refL queF := by
  induction queF with
  | nil => cases hmem
  | cons p rest ih =>
    obtain ⟨q', qs'⟩ := p
    rcases List.mem_cons.mp hmem with heq | hm
    · rw [Prod.mk.injEq] at heq
      unfold col_spec
      rw [heq.1, heq.2]
      exact List.mem_cons_of_mem _ (List.mem_cons_self _ _)
    · unfold col_spec
      exact List.mem_cons_of_mem _ (List.mem_cons_of_mem _ (ih hm))

lemma enrichment_inter_list_eq (refS queS univ : List α) :
    enrichment_pvalue (inter_list refS univ) (inter_list queS univ) univ
      false = enrichment_pvalue refS queS univ true :=
  rfl

/-! ## Claim C5 -/

/-- C5, counterexample: with the legitimate query mapping
`{"q": {x}, "q(random)": {x}}` (Q = 2 tags) the derived label of the
first tag collides with the second tag, the colliding dictionary key is
overwritten in place, and the returned table has 3 rows, not 2Q = 4. -/
theorem c5_counterexample :
    multi_sets_pvalues [("r", ["x"])] [("q", ["x"]), ("q(random)", ["x"])]
        ["x"] 1 (fun _ _ _ => ["x"]) =
      Except.ok [("r", [("q", 0), ("q(random)", 0),
        ("q(random)(random)", 0)])] ∧
    [("q", (0 : ℚ)), ("q(random)", 0), ("q(random)(random)", 0)].length = 3 ∧
    (3 : ℕ) ≠ 2 * 2 := by
  have hd : enrichment_pvalue (["x"] : List String) ["x"] ["x"] false =
      0 := by
    show hypergeom_sf 1 1 1 1 = 0
    norm_num [hypergeom_sf, hypergeom_pmf, Finset.sum_range_succ,
      Finset.sum_range_zero, Nat.choose]
  have hval : pvalue_random_val 1 (["x"] : List String) ["x"] 1
      (fun _ => ["x"]) = 0 := by
    show ((∑ _i in Finset.range 1, hypergeom_sf 1 1 1 1) / ((1 : ℕ) : ℚ)) = 0
    norm_num [hypergeom_sf, hypergeom_pmf, Finset.sum_range_succ,
      Finset.sum_range_zero, Nat.choose]
  have hbg : pvalue_random 1 (["x"] : List String) ["x"] ((1 : ℕ) : ℤ)
      (fun _ => ["x"]) = Except.ok 0 := by
    rw [pvalue_random_ok 1 ["x"] ["x"] 1 (fun _ => ["x"]) (by decide)
      (by decide), hval]
  refine ⟨?_, rfl, by decide⟩
  show multi_sets_build ["x"] 1 (fun _ _ _ => ["x"])
      [("q", ["x"]), ("q(random)", ["x"])] [("r", ["x"])] [] = _
  simp only [multi_sets_build, multi_sets_build_col, List.length_cons,
    List.length_nil, hbg, hd, exceptOk_bind]
  rfl

/-- C5 (amended): for every collection of R reference sets and Q query
sets given as tag-to-set mappings (distinct tags, insertion order
preserved; positional sequences are first auto-tagged `ref_i` / `que_i`
and then fall into this case), PROVIDED no derived row label collides —
i.e. the 2Q labels `q_1, q_1(random), q_2, q_2(random), ...` are
pairwise distinct — and the repeat count is positive, the table
returned by `multi_sets_pvalues` has exactly R columns labelled by the
reference tags in input order and exactly 2Q rows labelled, in input
order, by each query tag immediately followed by the tag plus
`(random)`; no cell is missing.  (A query tag literally equal to
another tag plus `(random)` is overwritten in place and reduces the row
count — see the counterexample.) -/
theorem c5_table_shape (ref_sets que_sets : List (String × List α))
    (univ : List α) (n_rep : ℕ) (draws : String → String → ℕ → List α)
    (hrep : 0 < n_rep) (href : (ref_sets.map Prod.fst).Nodup)
    (hrow : (row_labels que_sets).Nodup) :
    ∃ table, multi_sets_pvalues ref_sets que_sets univ n_rep draws =
        Except.ok table ∧
      table.map Prod.fst = ref_sets.map Prod.fst ∧
      table.length = ref_sets.length ∧
      ∀ col ∈ table, col.2.map Prod.fst = row_labels que_sets ∧
        col.2.length = 2 * que_sets.length := by
  have hrow' : (row_labels (que_sets.map
      (fun p => (p.1, inter_list p.2 univ)))).Nodup := by
    rw [row_labels_map]
    exact hrow
  have hq : ∀ p ∈ que_sets.map (fun p => (p.1, inter_list p.2 univ)),
      p.2.length ≤ univ.length := by
    intro p hp
    rcases List.mem_map.mp hp with ⟨a, _, rfl⟩
    exact inter_list_length_le a.2 univ
  have hnd0 : ((([] : List (String × List (String × ℚ))).map Prod.fst) ++
      (ref_sets.map (fun p => (p.1, inter_list p.2 univ))).map
        Prod.fst).Nodup := by
    simp only [List.map_nil, List.nil_append]
    rw [map_fst_pairmap]
    exact href
  have hmain := build_outer_eq univ n_rep draws
    (que_sets.map (fun p => (p.1, inter_list p.2 univ)))
    (Nat.pos_iff_ne_zero.mp hrep) hq hrow'
    (ref_sets.map (fun p => (p.1, inter_list p.2 univ))) [] hnd0
  rw [List.nil_append] at hmain
  refine ⟨_, hmain, ?_, ?_, ?_⟩
  · rw [map_fst_pairmap, map_fst_pairmap]
  · rw [List.length_map, List.length_map]
  · intro col hcol
    rcases List.mem_map.mp hcol with ⟨a, _, rfl⟩
    constructor
    · rw [col_spec_labels, row_labels_map]
    · rw [col_spec_length, List.length_map]

/-- C5, witness: the amended theorem at one reference set and one query
set with collision-free tags. -/
theorem c5_witness :
    ((0 : ℕ) < 1 ∧
      (([("ref_0", ["x"])] : List (String × List String)).map
        Prod.fst).Nodup ∧
      (row_labels ([("que_0", ["x"])] : List (String × List String))).Nodup) ∧
    ∃ table, multi_sets_pvalues [("ref_0", ["x"])] [("que_0", ["x"])]
        (["x"] : List String) 1 (fun _ _ _ => ["x"]) = Except.ok table ∧
      table.map Prod.fst =
        ([("ref_0", ["x"])] : List (String × List String)).map Prod.fst ∧
      table.length =
        ([("ref_0", ["x"])] : List (String × List String)).length ∧
      ∀ col ∈ table, col.2.map Prod.fst =
          row_labels ([("que_0", ["x"])] : List (String × List String)) ∧
        col.2.length =
          2 * ([("que_0", ["x"])] : List (String × List String)).length :=
  ⟨⟨by decide, by decide, by decide⟩,
    c5_table_shape [("ref_0", ["x"])] [("que_0", ["x"])] ["x"] 1
      (fun _ _ _ => ["x"]) (by decide) (by decide) (by decide)⟩

/-! ## Claim C4 -/

/-- C4, counterexample: with query tags `"a(random)"` then `"a"` (both
legal, distinct dictionary keys), the background entry of tag `"a"` is
stored under the key `"a(random)"` and overwrites, in place, the direct
cell of the tag `"a(random)"`.  The final cell (r, "a(random)") holds
the background value 0, while `enrichment_pvalue` for that pair is 1/2:
the direct-cell equation of the claim fails on the returned table. -/
theorem c4_counterexample :
    multi_sets_pvalues [("r", ["x"])] [("a(random)", ["y"]), ("a", ["y"])]
        ["x", "y"] 1 (fun _ _ _ => ["x"]) =
      Except.ok [("r", [("a(random)", 0), ("a(random)(random)", 0),
        ("a", 1 / 2)])] ∧
    dictGet [("a(random)", (0 : ℚ)), ("a(random)(random)", 0),
      ("a", 1 / 2)] "a(random)" = some 0 ∧
    enrichment_pvalue ["x"] ["y"] ["x", "y"] true = 1 / 2 ∧
    (0 : ℚ) ≠ 1 / 2 := by
  have hd : enrichment_pvalue (["x"] : List String) ["y"] ["x", "y"]
      false = 1 / 2 := by
    show hypergeom_sf 0 2 1 1 = 1 / 2
    norm_num [hypergeom_sf, hypergeom_pmf, Finset.sum_range_succ,
      Finset.sum_range_zero, Nat.choose]
  have hval : pvalue_random_val 1 (["x", "y"] : List String) ["x"] 1
      (fun _ => ["x"]) = 0 := by
    show ((∑ _i in Finset.range 1, hypergeom_sf 1 2 1 1) / ((1 : ℕ) : ℚ)) = 0
    norm_num [hypergeom_sf, hypergeom_pmf, Finset.sum_range_succ,
      Finset.sum_range_zero, Nat.choose]
  have hbg : pvalue_random 1 (["x", "y"] : List String) ["x"]
      ((1 : ℕ) : ℤ) (fun _ => ["x"]) = Except.ok 0 := by
    rw [pvalue_random_ok 1 ["x", "y"] ["x"] 1 (fun _ => ["x"]) (by decide)
      (by decide), hval]
  refine ⟨?_, rfl, ?_, by norm_num⟩
  · show multi_sets_build ["x", "y"] 1 (fun _ _ _ => ["x"])
        [("a(random)", ["y"]), ("a", ["y"])] [("r", ["x"])] [] = _
    simp only [multi_sets_build, multi_sets_build_col, List.length_cons,
      List.length_nil, hbg, hd, exceptOk_bind]
    rfl
  · show hypergeom_sf 0 2 1 1 = 1 / 2
    norm_num [hypergeom_sf, hypergeom_pmf, Finset.sum_range_succ,
      Finset.sum_range_zero, Nat.choose]

/-- C4 (amended): PROVIDED no derived row label collides (the 2Q labels
are pairwise distinct) and the repeat count is positive, for every
reference tag r with set R and query tag q with set Q, the direct cell
(r, q) of the returned table equals
`enrichment_pvalue(R, Q, U, check_valid=True)` — pre-filtering every
set once by intersecting with the universe and calling the pairwise
test with `check_valid=False` is equivalent (the equivalence
`enrichment_inter_list_eq` is definitional) — and the companion
background cell (r, q + "(random)") is the random-background mean
computed with sample size equal to the size of the universe-filtered
query set.  (Without the proviso a later background entry can overwrite
a direct cell in place — see the counterexample.) -/
theorem c4_cell_refinement (ref_sets que_sets : List (String × List α))
    (univ : List α) (n_rep : ℕ) (draws : String → String → ℕ → List α)
    (r : String) (refS : List α) (q : String) (queS : List α)
    (hrep : 0 < n_rep) (href : (ref_sets.map Prod.fst).Nodup)
    (hrow : (row_labels que_sets).Nodup)
    (hr : (r, refS) ∈ ref_sets) (hq : (q, queS) ∈ que_sets) :
    ∃ table col,
      multi_sets_pvalues ref_sets que_sets univ n_rep draws =
        Except.ok table ∧
      dictGet table r = some col ∧
      dictGet col q = some (enrichment_pvalue refS queS univ true) ∧
      dictGet col (q ++ "(random)") =
        some (pvalue_random_val (inter_list queS univ).length univ
          (inter_list refS univ) n_rep (draws r q)) := by
  have hrow' : (row_labels (que_sets.map
      (fun p => (p.1, inter_list p.2 univ)))).Nodup := by
    rw [row_labels_map]
    exact hrow
  have hq' : ∀ p ∈ que_sets.map (fun p => (p.1, inter_list p.2 univ)),
      p.2.length ≤ univ.length := by
    intro p hp
    rcases List.mem_map.mp hp with ⟨a, _, rfl⟩
    exact inter_list_length_le a.2 univ
  have hnd0 : ((([] : List (String × List (String × ℚ))).map Prod.fst) ++
      (ref_sets.map (fun p => (p.1, inter_list p.2 univ))).map
        Prod.fst).Nodup := by
    simp only [List.map_nil, List.nil_append]
    rw [map_fst_pairmap]
    exact href
  have hmain := build_outer_eq univ n_rep draws
    (que_sets.map (fun p => (p.1, inter_list p.2 univ)))
    (Nat.pos_iff_ne_zero.mp hrep) hq' hrow'
    (ref_sets.map (fun p => (p.1, inter_list p.2 univ))) [] hnd0
  rw [List.nil_append] at hmain
  refine ⟨_, col_spec univ n_rep (draws r) (inter_list refS univ)
    (que_sets.map (fun p => (p.1, inter_list p.2 univ))), hmain, ?_, ?_, ?_⟩
  · apply dictGet_of_mem
    · rw [map_fst_pairmap, map_fst_pairmap]
      exact href
    · exact List.mem_map.mpr ⟨(r, inter_list refS univ),
        List.mem_map.mpr ⟨(r, refS), hr, rfl⟩, rfl⟩
  · rw [← enrichment_inter_list_eq refS queS univ]
    apply dictGet_of_mem
    · rw [col_spec_labels]
      exact hrow'
    · exact col_spec_mem_direct univ n_rep (draws r) (inter_list refS univ)
        _ q (inter_list queS univ) (List.mem_map.mpr ⟨(q, queS), hq, rfl⟩)
  · apply dictGet_of_mem
    · rw [col_spec_labels]
      exact hrow'
    · exact col_spec_mem_bg univ n_rep (draws r) (inter_list refS univ)
        _ q (inter_list queS univ) (List.mem_map.mpr ⟨(q, queS), hq, rfl⟩)

/-- C4, witness: the amended theorem at one reference pair and one
query pair with collision-free tags. -/
theorem c4_witness :
    ((0 : ℕ) < 1 ∧
      (([("r0", ["x"])] : List (String × List String)).map Prod.fst).Nodup ∧
      (row_labels ([("q0", ["x"])] : List (String × List String))).Nodup ∧
      ("r0", ["x"]) ∈ ([("r0", ["x"])] : List (String × List String)) ∧
      ("q0", ["x"]) ∈ ([("q0", ["x"])] : List (String × List String))) ∧
    ∃ table col,
      multi_sets_pvalues [("r0", ["x"])] [("q0", ["x"])]
          (["x"] : List String) 1 (fun _ _ _ => ["x"]) = Except.ok table ∧
      dictGet table "r0" = some col ∧
      dictGet col "q0" =
        some (enrichment_pvalue ["x"] ["x"] ["x"] true) ∧
      dictGet col ("q0" ++ "(random)") =
        some (pvalue_random_val (inter_list ["x"] ["x"]).length ["x"]
          (inter_list ["x"] ["x"]) 1 ((fun _ _ _ => ["x"]) "r0" "q0")) :=
  ⟨⟨by decide, by decide, by decide, by decide, by decide⟩,
    c4_cell_refinement [("r0", ["x"])] [("q0", ["x"])] ["x"] 1
      (fun _ _ _ => ["x"]) "r0" ["x"] "q0" ["x"] (by decide) (by decide)
      (by decide) (by decide) (by decide)⟩
